import Mathlib

/-!
Verification development for the `nn` CSV-parsing repository.

The Rust sources are shallowly embedded: bytes are `Fin 256`, buffers are
`List Byte`, every enum becomes an inductive type with the same constructor
names, and every function is translated clause by clause.  Loops that can run
past the end of the buffer in the source are modelled with explicit fuel, and
operations that panic in the source (integer parse failures, out-of-range
slicing, failed assertions) are modelled with `Option`, `none` standing for
"the call never returns a value".
-/

set_option maxRecDepth 40000

/-- Bytes of the memory-mapped input file. -/
abbrev Byte := Fin 256

namespace Nn

/-! ## cell.rs -/

/-- Tagged cell value (`cell.rs`, `enum Cell`).  The `Decimal` payload is the
exact rational value of the parsed decimal literal; the Rust code stores the
nearest `f64`, which agrees with the exact value for every literal appearing
in this development. `String` keeps the raw byte slice. -/
inductive Cell where
  | Null : Cell
  | String (s : List Byte) : Cell
  | Number (n : Int) : Cell
  | Decimal (q : ℚ) : Cell
deriving DecidableEq

/-- Column type tags (`cell.rs`, `enum CellType`). -/
inductive CellType where
  | String : CellType
  | I64 : CellType
  | F64 : CellType
  | Null : CellType
deriving DecidableEq

namespace CellType

/-- `cell.rs`, `CellType::infer_from_f64`. -/
def infer_from_f64 (self : CellType) : CellType :=
  if self = .String then .String else self

/-- `cell.rs`, `CellType::infer_from_i64`. -/
def infer_from_i64 (self : CellType) : CellType :=
  match self with
  | .I64 => .I64
  | .Null => .I64
  | _ => self

/-- `cell.rs`, `CellType::infer_type`; `self` is the receiver and
`current_type` the argument, exactly as in the source. -/
def infer_type (self : CellType) (current_type : CellType) : CellType :=
  match self with
  | .Null => current_type
  | .F64 => infer_from_f64 current_type
  | .I64 => infer_from_i64 current_type
  | _ => .String

end CellType

/-! ## parse_state.rs

The standalone lexical state machine module.  (`parser.rs` contains its own,
slightly different copy of the machine, embedded further below under
`Nn.Parser`.) -/

namespace Pstate

/-- `parse_state.rs`, `enum PrevState`: the numeric/decimal sub-state
remembered by a suspended whitespace state. -/
inductive PrevState where
  | Start
  | CellString
  | CellCurrent
  | CellQuoteStart
  | CellQuoteCurrent
  | CellQuoteEnd
  | CellQuoteNumberStart
  | CellQuoteNumberCurrent
  | CellQuoteNumberEnd
  | CellQuoteDecimalStart
  | CellQuoteDecimalCurrent
  | CellQuoteDecimalEnd
  | CellNumberStart
  | CellNumberCurrent
  | CellNumberEnd
  | CellDecimalStart
  | CellDecimalCurrent
  | CellDecimalEnd
  | CellDecimalStartWithPointRead
  | CellDecimalCurrentWithPointRead
  | CellDecimalEndWithPointRead
  | CellQuoteDecimalStartWithPointRead
  | CellQuoteDecimalCurrentWithPointRead
  | CellQuoteDecimalEndWithPointRead
  | CellSep
  | SkipChar
  | NewLine
  | EndFile
deriving DecidableEq

/-- `parse_state.rs`, `enum ParseState`.  The suspended whitespace state
carries the remembered `PrevState`, as in the source. -/
inductive ParseState where
  | Start
  | HeaderString
  | HeaderQuoteStart
  | HeaderQuoteEnd
  | HeaderSep
  | CellString
  | CellCurrent
  | CellQuoteStart
  | CellQuoteCurrent
  | CellQuoteEnd
  | CellQuoteNumberStart
  | CellQuoteNumberCurrent
  | CellQuoteNumberEnd
  | CellQuoteDecimalStart
  | CellQuoteDecimalCurrent
  | CellQuoteDecimalEnd
  | CellNumberStart
  | CellNumberCurrent
  | CellNumberEnd
  | CellDecimalStart
  | CellDecimalCurrent
  | CellDecimalEnd
  | CellDecimalStartWithPointRead
  | CellDecimalCurrentWithPointRead
  | CellDecimalEndWithPointRead
  | CellQuoteDecimalStartWithPointRead
  | CellQuoteDecimalCurrentWithPointRead
  | CellQuoteDecimalEndWithPointRead
  | CarriageRet
  | CellSep
  | SkipChar
  | SkippedStartWhitespace
  | SkippedAssumeEndWhitespace (prev : PrevState)
  | NewLine
  | EndFile
deriving DecidableEq

/-- `parse_state.rs`, `PrevState::get_end_of_parse_state`. -/
def get_end_of_parse_state (initial_state : PrevState) : ParseState :=
  match initial_state with
  | .CellString | .CellCurrent => .CellSep
  | .CellDecimalStart | .CellDecimalCurrent | .CellDecimalEnd => .CellDecimalEnd
  | .CellDecimalCurrentWithPointRead | .CellDecimalEndWithPointRead
  | .CellDecimalStartWithPointRead => .CellDecimalEndWithPointRead
  | .CellNumberStart | .CellNumberCurrent | .CellNumberEnd => .CellNumberEnd
  | .CellQuoteStart | .CellQuoteCurrent | .CellQuoteEnd => .CellQuoteEnd
  | .CellQuoteDecimalStart | .CellQuoteDecimalCurrent
  | .CellQuoteDecimalEnd => .CellQuoteDecimalEnd
  | .CellQuoteDecimalStartWithPointRead | .CellQuoteDecimalCurrentWithPointRead
  | .CellQuoteDecimalEndWithPointRead => .CellQuoteDecimalEndWithPointRead
  | .CellQuoteNumberStart | .CellQuoteNumberCurrent
  | .CellQuoteNumberEnd => .CellQuoteNumberEnd
  | .CellSep => .CellSep
  | .EndFile => .EndFile
  | .NewLine => .NewLine
  | .SkipChar => .SkipChar
  | .Start => .Start

/-- `parse_state.rs`, `ParseState::handle_decimal_state`. -/
def handle_decimal_state (initial_state : ParseState) : ParseState :=
  match initial_state with
  | .CellNumberCurrent | .CellNumberStart => .CellDecimalCurrentWithPointRead
  | .CellQuoteStart => .CellQuoteDecimalStartWithPointRead
  | .CellQuoteCurrent => .CellQuoteCurrent
  | .CellQuoteNumberStart | .CellQuoteNumberCurrent =>
      .CellQuoteDecimalCurrentWithPointRead
  | .CellQuoteDecimalStartWithPointRead
  | .CellQuoteDecimalCurrentWithPointRead => .CellQuoteCurrent
  | .CellString | .CellDecimalStartWithPointRead
  | .CellDecimalCurrentWithPointRead | .CellCurrent => .CellCurrent
  | .SkippedAssumeEndWhitespace _ => .CellCurrent
  | _ => .CellDecimalStartWithPointRead

/-- `parse_state.rs`, `ParseState::handle_default`. -/
def handle_default (initial_state : ParseState) : ParseState :=
  match initial_state with
  | .CellQuoteStart | .CellQuoteCurrent => .CellQuoteCurrent
  | .CellString | .CellCurrent | .CellNumberStart | .CellDecimalStart
  | .CellNumberCurrent | .CellDecimalCurrent
  | .CellDecimalStartWithPointRead | .CellDecimalCurrentWithPointRead
  | .CellQuoteDecimalStartWithPointRead
  | .CellQuoteDecimalCurrentWithPointRead => .CellCurrent
  | .SkippedAssumeEndWhitespace _ => .CellCurrent
  | _ => .CellString

/-- `parse_state.rs`, `ParseState::handle_separator`. -/
def handle_separator (initial_state : ParseState) : ParseState :=
  match initial_state with
  | .CellQuoteCurrent | .CellQuoteStart | .CellQuoteDecimalCurrent
  | .CellQuoteDecimalStart | .CellQuoteDecimalStartWithPointRead
  | .CellQuoteDecimalCurrentWithPointRead => .CellQuoteCurrent
  | .CellNumberCurrent | .CellNumberStart => .CellNumberEnd
  | .CellDecimalCurrent | .CellDecimalStart | .CellDecimalStartWithPointRead
  | .CellDecimalCurrentWithPointRead => .CellDecimalEnd
  | .SkippedAssumeEndWhitespace v => get_end_of_parse_state v
  | _ => .CellSep

/-- `parse_state.rs`, `ParseState::handle_number`. -/
def handle_number (initial_state : ParseState) : ParseState :=
  match initial_state with
  | .CellQuoteDecimalStartWithPointRead
  | .CellQuoteDecimalCurrentWithPointRead =>
      .CellQuoteDecimalCurrentWithPointRead
  | .CellQuoteStart | .CellQuoteNumberStart | .CellQuoteNumberCurrent =>
      .CellQuoteNumberCurrent
  | .CellQuoteCurrent => .CellQuoteCurrent
  | .CellNumberCurrent | .CellNumberStart => .CellNumberCurrent
  | .CellDecimalStartWithPointRead | .CellDecimalCurrentWithPointRead =>
      .CellDecimalCurrentWithPointRead
  | .CellDecimalCurrent | .CellDecimalStart => .CellDecimalCurrent
  | .CellString | .CellCurrent => .CellCurrent
  | .SkippedAssumeEndWhitespace _ => .CellCurrent
  | _ => .CellNumberStart

/-- `parse_state.rs`, `ParseState::handle_lf` (the byte argument `c` is
unused in this copy of the machine and is dropped here). -/
def handle_lf (initial_state : ParseState) : ParseState :=
  match initial_state with
  | .CellQuoteCurrent | .CellQuoteStart | .CellQuoteDecimalCurrent
  | .CellQuoteDecimalStart | .CellQuoteDecimalStartWithPointRead
  | .CellQuoteDecimalCurrentWithPointRead => .CellQuoteCurrent
  | .CellNumberCurrent | .CellNumberStart => .CellNumberEnd
  | .CellDecimalCurrent | .CellDecimalStart | .CellDecimalStartWithPointRead
  | .CellDecimalCurrentWithPointRead => .CellDecimalEnd
  | .SkippedAssumeEndWhitespace v => get_end_of_parse_state v
  | _ => .NewLine

/-- `parse_state.rs`, `ParseState::handle_quotes`. -/
def handle_quotes (initial_state : ParseState) : ParseState :=
  match initial_state with
  | .CellQuoteStart | .CellQuoteCurrent => .CellQuoteEnd
  | .CellQuoteDecimalStart | .CellQuoteDecimalCurrent => .CellQuoteDecimalEnd
  | .CellQuoteDecimalStartWithPointRead
  | .CellQuoteDecimalCurrentWithPointRead => .CellQuoteDecimalEndWithPointRead
  | .SkippedAssumeEndWhitespace v => get_end_of_parse_state v
  | _ => .CellQuoteStart

/-- `parse_state.rs`, `ParseState::handle_cr`. -/
def handle_cr (initial_state : ParseState) : ParseState :=
  match initial_state with
  | .CellQuoteCurrent | .CellQuoteStart | .CellQuoteDecimalCurrent
  | .CellQuoteDecimalStart | .CellQuoteDecimalStartWithPointRead
  | .CellQuoteDecimalCurrentWithPointRead => .CellQuoteCurrent
  | .CellNumberCurrent | .CellNumberStart => .CarriageRet
  | .CellDecimalCurrent | .CellDecimalStart =>
      .SkippedAssumeEndWhitespace .CellDecimalCurrent
  | .CellDecimalStartWithPointRead | .CellDecimalCurrentWithPointRead =>
      .SkippedAssumeEndWhitespace .CellDecimalCurrentWithPointRead
  | .SkippedAssumeEndWhitespace v => .SkippedAssumeEndWhitespace v
  | _ => .CarriageRet

/-- `parse_state.rs`, `ParseState::handle_white_space`. -/
def handle_white_space (initial_state : ParseState) : ParseState :=
  match initial_state with
  | .CellSep | .SkippedStartWhitespace => .SkippedStartWhitespace
  | .CellQuoteStart | .CellQuoteCurrent | .CellQuoteNumberStart
  | .CellQuoteDecimalStart | .CellQuoteNumberCurrent
  | .CellQuoteDecimalCurrent | .CellQuoteDecimalStartWithPointRead
  | .CellQuoteDecimalCurrentWithPointRead => .CellQuoteCurrent
  | .CellCurrent | .CellDecimalStartWithPointRead
  | .CellDecimalCurrentWithPointRead => .CellCurrent
  | .CellNumberStart | .CellNumberCurrent =>
      .SkippedAssumeEndWhitespace .CellNumberCurrent
  | .CellDecimalStart | .CellDecimalCurrent =>
      .SkippedAssumeEndWhitespace .CellDecimalCurrent
  | .SkippedAssumeEndWhitespace v => .SkippedAssumeEndWhitespace v
  | _ => .SkippedStartWhitespace

/-- `parse_state.rs`, `ParseState::get_scan_state_from_data`: byte dispatch
on `"` `.` digits `,` LF CR space, default otherwise. -/
def get_scan_state_from_data (initial_state : ParseState) (c : Byte) :
    ParseState :=
  if c.val = 34 then handle_quotes initial_state
  else if c.val = 46 then handle_decimal_state initial_state
  else if 48 ≤ c.val ∧ c.val ≤ 57 then handle_number initial_state
  else if c.val = 44 then handle_separator initial_state
  else if c.val = 10 then handle_lf initial_state
  else if c.val = 13 then handle_cr initial_state
  else if c.val = 32 then handle_white_space initial_state
  else handle_default initial_state

/-- The four plain (unquoted, no point read) number/decimal reading states:
exactly the states that `handle_white_space` sends to a suspended state. -/
def suspendable : List ParseState :=
  [.CellNumberStart, .CellNumberCurrent, .CellDecimalStart, .CellDecimalCurrent]

/-- The `PrevState` payload that `handle_white_space` records for each
suspendable state. -/
def suspended_memory : ParseState → PrevState
  | .CellNumberStart | .CellNumberCurrent => .CellNumberCurrent
  | .CellDecimalStart | .CellDecimalCurrent => .CellDecimalCurrent
  | _ => .Start

/-- The quoted-context states (quote-open and quote-body, for the string,
number and decimal variants). -/
def isQuoted : ParseState → Bool
  | .CellQuoteStart | .CellQuoteCurrent
  | .CellQuoteNumberStart | .CellQuoteNumberCurrent
  | .CellQuoteDecimalStart | .CellQuoteDecimalCurrent
  | .CellQuoteDecimalStartWithPointRead
  | .CellQuoteDecimalCurrentWithPointRead => true
  | _ => false

/-- The closing-quote boundary states. -/
def isQuoteEnd : ParseState → Bool
  | .CellQuoteEnd | .CellQuoteNumberEnd
  | .CellQuoteDecimalEnd | .CellQuoteDecimalEndWithPointRead => true
  | _ => false

/-- The quoted states actually produced by the transition function (the plain
quoted-decimal start/body states are generated nowhere). -/
def reachableQuoted : List ParseState :=
  [.CellQuoteStart, .CellQuoteCurrent, .CellQuoteNumberStart,
   .CellQuoteNumberCurrent, .CellQuoteDecimalStartWithPointRead,
   .CellQuoteDecimalCurrentWithPointRead]

/-- All quoted-context states, including the two unreachable plain
quoted-decimal ones. -/
def allQuoted : List ParseState :=
  reachableQuoted ++ [.CellQuoteDecimalStart, .CellQuoteDecimalCurrent]

end Pstate

/-! ## parser.rs

`parser.rs` declares its own `ParseState` enum (without the carriage-return
and payload-carrying whitespace states of `parse_state.rs`) and its own copy
of the transition handlers; both are embedded here verbatim. -/

namespace Parser

/-- `parser.rs`, `enum ParseState`. -/
inductive ParseState where
  | Start
  | HeaderString
  | HeaderQuoteStart
  | HeaderQuoteEnd
  | HeaderSep
  | CellString
  | CellCurrent
  | CellQuoteStart
  | CellQuoteCurrent
  | CellQuoteEnd
  | CellQuoteNumberStart
  | CellQuoteNumberCurrent
  | CellQuoteNumberEnd
  | CellQuoteDecimalStart
  | CellQuoteDecimalCurrent
  | CellQuoteDecimalEnd
  | CellNumberStart
  | CellNumberCurrent
  | CellNumberEnd
  | CellDecimalStart
  | CellDecimalCurrent
  | CellDecimalEnd
  | CellDecimalStartWithPointRead
  | CellDecimalCurrentWithPointRead
  | CellDecimalEndWithPointRead
  | CellQuoteDecimalStartWithPointRead
  | CellQuoteDecimalCurrentWithPointRead
  | CellQuoteDecimalEndWithPointRead
  | CellSep
  | SkipChar
  | SkippedStartWhitespace
  | SkippedAssumeEndWhitespace
  | NewLine
  | EndFile
deriving DecidableEq

/-- `parser.rs`, `CsvParser::handle_decimal_state`. -/
def handle_decimal_state (initial_state : ParseState) : ParseState :=
  match initial_state with
  | .CellNumberCurrent | .CellNumberStart => .CellDecimalCurrentWithPointRead
  | .CellQuoteStart => .CellQuoteDecimalStartWithPointRead
  | .CellQuoteCurrent => .CellQuoteCurrent
  | .CellQuoteNumberStart | .CellQuoteNumberCurrent =>
      .CellQuoteDecimalCurrentWithPointRead
  | .CellQuoteDecimalStartWithPointRead
  | .CellQuoteDecimalCurrentWithPointRead => .CellQuoteCurrent
  | .CellString | .CellDecimalStartWithPointRead
  | .CellDecimalCurrentWithPointRead | .CellCurrent => .CellCurrent
  | _ => .CellDecimalStartWithPointRead

/-- `parser.rs`, `CsvParser::handle_default` (this copy lists
`CellNumberCurrent`/`CellDecimalCurrent` but not the `Start` variants). -/
def handle_default (initial_state : ParseState) : ParseState :=
  match initial_state with
  | .CellQuoteStart | .CellQuoteCurrent => .CellQuoteCurrent
  | .CellString | .CellCurrent | .CellNumberCurrent | .CellDecimalCurrent
  | .CellDecimalStartWithPointRead | .CellDecimalCurrentWithPointRead
  | .CellQuoteDecimalStartWithPointRead
  | .CellQuoteDecimalCurrentWithPointRead => .CellCurrent
  | _ => .CellString

/-- `parser.rs`, `CsvParser::handle_separator`. -/
def handle_separator (initial_state : ParseState) : ParseState :=
  match initial_state with
  | .CellQuoteCurrent | .CellQuoteStart | .CellQuoteDecimalCurrent
  | .CellQuoteDecimalStart | .CellQuoteDecimalStartWithPointRead
  | .CellQuoteDecimalCurrentWithPointRead => .CellQuoteCurrent
  | .CellNumberCurrent | .CellNumberStart => .CellNumberEnd
  | .CellDecimalCurrent | .CellDecimalStart | .CellDecimalStartWithPointRead
  | .CellDecimalCurrentWithPointRead => .CellDecimalEnd
  | _ => .CellSep

/-- `parser.rs`, `CsvParser::handle_number`. -/
def handle_number (initial_state : ParseState) : ParseState :=
  match initial_state with
  | .CellQuoteDecimalStartWithPointRead
  | .CellQuoteDecimalCurrentWithPointRead =>
      .CellQuoteDecimalCurrentWithPointRead
  | .CellQuoteStart | .CellQuoteNumberStart | .CellQuoteNumberCurrent =>
      .CellQuoteNumberCurrent
  | .CellQuoteCurrent => .CellQuoteCurrent
  | .CellNumberCurrent | .CellNumberStart => .CellNumberCurrent
  | .CellDecimalStartWithPointRead | .CellDecimalCurrentWithPointRead =>
      .CellDecimalCurrentWithPointRead
  | .CellDecimalCurrent | .CellDecimalStart => .CellDecimalCurrent
  | .CellString | .CellCurrent => .CellCurrent
  | _ => .CellNumberStart

/-- `parser.rs`, `CsvParser::handle_lf`; handles both CR and LF, a bare CR
in the default arm acting as a cell separator. -/
def handle_lf (initial_state : ParseState) (c : Byte) : ParseState :=
  match initial_state with
  | .CellQuoteCurrent | .CellQuoteStart | .CellQuoteDecimalCurrent
  | .CellQuoteDecimalStart | .CellQuoteDecimalStartWithPointRead
  | .CellQuoteDecimalCurrentWithPointRead => .CellQuoteCurrent
  | .CellNumberCurrent | .CellNumberStart => .CellNumberEnd
  | .CellDecimalCurrent | .CellDecimalStart | .CellDecimalStartWithPointRead
  | .CellDecimalCurrentWithPointRead => .CellDecimalEnd
  | _ => if c.val = 13 then .CellSep else .NewLine

/-- `parser.rs`, `CsvParser::get_scan_state_from_data`: byte dispatch on
`"` `.` digits `,` CR/LF, default otherwise (the whitespace arm is commented
out in this copy, so a space byte takes the default path). -/
def get_scan_state_from_data (initial_state : ParseState) (c : Byte) :
    ParseState :=
  if c.val = 34 then
    match initial_state with
    | .CellQuoteStart | .CellQuoteCurrent => .CellQuoteEnd
    | .CellQuoteDecimalStart | .CellQuoteDecimalCurrent =>
        .CellQuoteDecimalEnd
    | .CellQuoteDecimalStartWithPointRead
    | .CellQuoteDecimalCurrentWithPointRead =>
        .CellQuoteDecimalEndWithPointRead
    | _ => .CellQuoteStart
  else if c.val = 46 then handle_decimal_state initial_state
  else if 48 ≤ c.val ∧ c.val ≤ 57 then handle_number initial_state
  else if c.val = 44 then handle_separator initial_state
  else if c.val = 13 ∨ c.val = 10 then handle_lf initial_state c
  else handle_default initial_state

/-! ### Slicing and searching helpers shared by the embedded functions -/

/-- The byte slice `buf[s..e]` (empty when `s ≥ e`; the Rust indexing would
panic when `s > e`, a case that is either unreachable or modelled with
`none` at each use site below). -/
def extract (buf : List Byte) (s e : Nat) : List Byte := (buf.take e).drop s

/-- Absolute position of the first byte at or after `i` satisfying `p`
(`iter().position(...)` on a suffix, with the offset added back). -/
def findFrom (buf : List Byte) (p : Byte → Bool) (i : Nat) : Option Nat :=
  match (buf.drop i).findIdx? p with
  | some j => some (i + j)
  | none => none

/-- Number of LF bytes in a slice; `slice.split(|c| *c == b'\n').count()`
equals this plus one. -/
def countNL (l : List Byte) : Nat := l.countP (fun b => decide (b.val = 10))

/-! ### Numeric slice conversion -/

/-- Digit-string value. -/
def digitsToNat (l : List Byte) : Nat :=
  l.foldl (fun acc b => 10 * acc + (b.val - 48)) 0

/-- All bytes are ASCII digits. -/
def allDigits (l : List Byte) : Bool :=
  l.all (fun b => decide (48 ≤ b.val ∧ b.val ≤ 57))

/-- Strip one optional leading `+`/`-` sign, reporting whether it was `-`. -/
def stripSign (l : List Byte) : Bool × List Byte :=
  match l with
  | b :: rest =>
      if b.val = 45 then (true, rest)
      else if b.val = 43 then (false, rest) else (false, l)
  | [] => (false, [])

/-- `slice.parse::<i64>()`: optional sign, then a non-empty digit string,
`none` on any other character or on 64-bit overflow. -/
def parseI64 (l : List Byte) : Option Int :=
  let sd := stripSign l
  if sd.2 = [] then none
  else if ¬ allDigits sd.2 then none
  else
    let v : Int := if sd.1 then -(digitsToNat sd.2 : Int) else (digitsToNat sd.2 : Int)
    if v < -(2 ^ 63) ∨ 2 ^ 63 - 1 < v then none else some v

/-- `slice.parse::<f64>()`, restricted to the forms `[sign] digits [. digits]`
with at least one digit — the only forms a slice classified numeric/decimal
by the state machine can take (no exponent, infinity or nan spellings reach
this call).  The result is the exact rational value of the literal; the Rust
code keeps the nearest `f64`, which is the same number for every literal in
this file. -/
def parseF64 (l : List Byte) : Option ℚ :=
  let sd := stripSign l
  let ip := sd.2.takeWhile (fun b => decide (b.val ≠ 46))
  let rest := sd.2.dropWhile (fun b => decide (b.val ≠ 46))
  match rest with
  | [] =>
      if ip = [] then none
      else if ¬ allDigits ip then none
      else some (if sd.1 then -(digitsToNat ip : ℚ) else (digitsToNat ip : ℚ))
  | _ :: fp =>
      if ¬ allDigits ip then none
      else if ¬ allDigits fp then none
      else if ip = [] ∧ fp = [] then none
      else
        let q : ℚ := (digitsToNat ip : ℚ) + (digitsToNat fp : ℚ) / 10 ^ fp.length
        some (if sd.1 then -q else q)

/-- `parser.rs`, `CsvParser::convert_from_slice`; `none` models the
`unwrap()` panic on a failed numeric parse. -/
def convert_from_slice (slice : List Byte) (state : ParseState) : Option Cell :=
  match state with
  | .CellNumberEnd | .CellQuoteNumberEnd => (parseI64 slice).map Cell.Number
  | .CellDecimalEnd | .CellDecimalEndWithPointRead
  | .CellQuoteDecimalEnd | .CellQuoteDecimalEndWithPointRead =>
      (parseF64 slice).map Cell.Decimal
  | _ => some (Cell.String slice)

/-! ### Whitespace handling -/

/-- `u8::is_ascii_whitespace`: space, tab, LF, form feed, CR (not 0x0B). -/
def is_ascii_whitespace (b : Byte) : Bool :=
  b.val = 32 || b.val = 9 || b.val = 10 || b.val = 12 || b.val = 13

/-- `parser.rs`, `CsvParser::trim_ascii`.  The source computes the first and
last non-whitespace positions; when the slice is all whitespace both
searches fail and the slice is returned unchanged (the two mixed
`Some`/`None` arms cannot occur). -/
def trim_ascii (slice : List Byte) : List Byte :=
  if slice.all is_ascii_whitespace then slice
  else
    ((slice.dropWhile is_ascii_whitespace).reverse.dropWhile
        is_ascii_whitespace).reverse

/-- The byte class skipped by `CsvParser::skip_whitespace`: space, LF, and
bytes 9 through 13 (unlike `is_ascii_whitespace`, this includes 0x0B). -/
def isSkipWs (b : Byte) : Bool :=
  b.val = 32 || b.val = 10 || (9 ≤ b.val && b.val ≤ 13)

/-- Offset reached by `CsvParser::skip_whitespace` when started with the
remaining bytes `l` at offset `n`. -/
def skipWsAux : List Byte → Nat → Nat
  | [], n => n
  | b :: rest, n => if isSkipWs b then skipWsAux rest (n + 1) else n

/-- `parser.rs`, `CsvParser::skip_whitespace`, as the offset it stops at. -/
def skip_whitespace (buf : List Byte) (off : Nat) : Nat :=
  skipWsAux (buf.drop off) off

/-! ### Header scanning

The two sub-scanners loop byte by byte and stop only on their terminator
byte; reading past the end of the buffer keeps advancing the offset (the
`None` arm of `get_curr_byte` falls into the catch-all `move_next`), so the
Rust loop terminates exactly when the terminator occurs in the buffer.  The
sub-scan is therefore embedded as a search, `none` marking divergence, and
the outer `scan_header` loop carries explicit fuel: every iteration either
stops, advances the offset, or moves from `Start` to a consuming state, so
`2 * length + 8` fuel is enough whenever the source loop terminates. -/

/-- `parser.rs`, `CsvParser::scan_start`. -/
def scan_start (buf : List Byte) (off : Nat) : ParseState :=
  match buf.get? off with
  | some b =>
      if b.val = 34 then .HeaderQuoteStart
      else if b.val = 44 then .HeaderSep
      else if b.val = 10 then .NewLine
      else .HeaderString
  | none => .NewLine

/-- One terminator byte for `scan_header_string`: separator, CR, or LF. -/
def isHeaderTerm (b : Byte) : Bool := b.val = 44 || b.val = 13 || b.val = 10

/-- One iteration of the `parser.rs` `CsvParser::scan_header` loop: either
the next `(state, offset, names)` triple, or the final answer — `some` at
the `NewLine` break, `none` when a sub-scanner diverges. -/
def scan_header_step (buf : List Byte) (st : ParseState) (off : Nat)
    (acc : List (List Byte)) :
    (ParseState × Nat × List (List Byte)) ⊕ Option (List (List Byte) × Nat) :=
  match st with
  | .Start => .inl (scan_start buf off, off, acc)
  | .HeaderQuoteStart =>
      -- `scan_header_quote`: step past the opening quote, then scan to the
      -- closing quote; no closing quote means the source loops forever.
      match findFrom buf (fun b => decide (b.val = 34)) (off + 1) with
      | none => .inr none
      | some j => .inl (.HeaderQuoteEnd, j, acc ++ [extract buf (off + 1) j])
  | .HeaderString =>
      -- `scan_header_string`: scan from the next byte to a separator, CR or
      -- LF (state `HeaderSep` or `NewLine` respectively); reaching the end
      -- of the buffer first loops forever.
      match findFrom buf isHeaderTerm (off + 1) with
      | none => .inr none
      | some j =>
          .inl ((match buf.get? j with
                 | some b => if b.val = 44 then .HeaderSep else .NewLine
                 | none => .NewLine), j, acc ++ [extract buf off j])
  | .NewLine => .inr (some (acc, off))
  | .HeaderQuoteEnd | .HeaderSep =>
      .inl (scan_start buf (off + 1), off + 1, acc)
  | _ => .inl (scan_start buf off, off, acc)

/-- The `parser.rs` `CsvParser::scan_header` loop, iterated with fuel. -/
def scan_header_loop (buf : List Byte) :
    Nat → ParseState → Nat → List (List Byte) →
    Option (List (List Byte) × Nat)
  | 0, _, _, _ => none
  | fuel + 1, st, off, acc =>
      match scan_header_step buf st off acc with
      | .inr r => r
      | .inl s => scan_header_loop buf fuel s.1 s.2.1 s.2.2

/-- `parser.rs`, `CsvParser::scan_header` (the `assert_eq!(offset, 0)` is
checked by the callers below, which model the parser's prior offset). -/
def scan_header (buf : List Byte) (fuel : Nat) :
    Option (List (List Byte) × Nat) :=
  scan_header_loop buf fuel .Start (skip_whitespace buf 0) []

/-- The header scan reaches its `NewLine` break for some amount of fuel,
i.e. the source loop terminates. -/
def ScanHeaderTerminates (buf : List Byte) : Prop :=
  ∃ fuel r, scan_header buf fuel = some r

/-! ### Cell tokenization

`parse_content` (used by the single-threaded `parse`) and
`parse_content_on_buffer` (the per-shard worker) share the same loop shape
but differ in three places faithfully kept below: the set of states that
record `start = index + 1`, the end bound of the closing-quote slice
(`index - 1` versus `index`), and the push list (`CellDecimalEndWithPointRead`
is only in `parse_content`).  Chunking by `batch_size` only groups the single
linear traversal and is flattened here.  A `none` result models a panic
(failed numeric parse, or an out-of-range slice). -/

/-- Loop body of `parser.rs`, `CsvParser::parse_content`: `idx` is the
absolute index of the head of `rest`, `start`/`used` are the source's
`start`/`start_used`, `acc` the cells pushed so far. -/
def parse_content_go (buf : List Byte) :
    Nat → List Byte → ParseState → Nat → Bool → List Cell → Option (List Cell)
  | _, [], _, _, _, acc => some acc
  | idx, c :: rest, st, start, used, acc =>
    let st2 := get_scan_state_from_data st c
    match st2 with
    | .Start | .CellString | .CellDecimalStartWithPointRead
    | .CellNumberStart =>
        parse_content_go buf (idx + 1) rest st2 idx false acc
    | .CellQuoteStart | .CellQuoteNumberStart | .CellQuoteDecimalStart
    | .CellQuoteDecimalCurrentWithPointRead =>
        parse_content_go buf (idx + 1) rest st2 (idx + 1) false acc
    | .CellNumberEnd | .CellDecimalEnd | .CellDecimalEndWithPointRead
    | .CellSep | .NewLine =>
        match
          (if used then some Cell.Null
           else if idx < start then none
           else convert_from_slice (extract buf start idx) st2) with
        | none => none
        | some v =>
            if st2 = .NewLine then
              parse_content_go buf (idx + 1) rest st2 start used acc
            else parse_content_go buf (idx + 1) rest st2 start true (acc ++ [v])
    | .CellQuoteEnd | .CellQuoteNumberEnd | .CellQuoteDecimalEnd
    | .CellQuoteDecimalEndWithPointRead =>
        -- the source slices `buf[start..index - 1]` here
        match
          (if used then some Cell.Null
           else if idx = 0 ∨ idx - 1 < start then none
           else convert_from_slice (extract buf start (idx - 1)) st2) with
        | none => none
        | some v =>
            if st2 = .NewLine then
              parse_content_go buf (idx + 1) rest st2 start used acc
            else parse_content_go buf (idx + 1) rest st2 start true (acc ++ [v])
    | _ => parse_content_go buf (idx + 1) rest st2 start used acc

/-- `parser.rs`, `CsvParser::parse_content`: skip `offset + 1` bytes, then
any CR/LF run (`next().unwrap()` panics if nothing remains), then tokenize
to the end of the buffer, starting from the `Start` state. -/
def parse_content (buf : List Byte) (offset_from_scanner : Nat) :
    Option (List Cell) :=
  match
    findFrom buf (fun b => decide (¬ (b.val = 13 ∨ b.val = 10)))
      (offset_from_scanner + 1) with
  | none => none
  | some nxt => parse_content_go buf nxt (buf.drop nxt) .Start 0 true []

/-- Loop body of `parser.rs`, `CsvParser::parse_content_on_buffer`.  The
source writes each pushed cell at the running `arr_index` only while
`arr_index < column_data.len()`; the model returns the full push list and
the bound is applied where the result slice is filled (`write_shard`). -/
def worker_go (buf : List Byte) :
    Nat → List Byte → ParseState → Nat → Bool → List Cell → Option (List Cell)
  | _, [], _, _, _, acc => some acc
  | idx, c :: rest, st, start, used, acc =>
    let st2 := get_scan_state_from_data st c
    match st2 with
    | .Start | .CellString | .CellDecimalStartWithPointRead
    | .CellNumberStart =>
        worker_go buf (idx + 1) rest st2 idx false acc
    | .CellQuoteStart | .CellQuoteNumberStart | .CellQuoteDecimalStart
    | .CellQuoteDecimalStartWithPointRead =>
        worker_go buf (idx + 1) rest st2 (idx + 1) false acc
    | .CellNumberEnd | .CellDecimalEnd | .CellSep | .NewLine =>
        match
          (if used then some Cell.Null
           else if idx < start then none
           else convert_from_slice (extract buf start idx) st2) with
        | none => none
        | some v =>
            if st2 = .NewLine then
              worker_go buf (idx + 1) rest st2 start used acc
            else worker_go buf (idx + 1) rest st2 start true (acc ++ [v])
    | .CellQuoteEnd | .CellQuoteNumberEnd | .CellQuoteDecimalEnd
    | .CellQuoteDecimalEndWithPointRead =>
        match
          (if used then some Cell.Null
           else if idx < start then none
           else convert_from_slice (extract buf start idx) st2) with
        | none => none
        | some v =>
            if st2 = .NewLine then
              worker_go buf (idx + 1) rest st2 start used acc
            else worker_go buf (idx + 1) rest st2 start true (acc ++ [v])
    | _ => worker_go buf (idx + 1) rest st2 start used acc

/-- `parser.rs`, `CsvParser::parse_content_on_buffer` for a worker created
with `CsvParser::new` on its shard slice (state `Start`, offset 0). -/
def parse_content_on_buffer (buf : List Byte) : Option (List Cell) :=
  worker_go buf 0 buf .Start 0 true []

/-! ### Line partitioning -/

/-- `slots_division + position-of-LF` as computed twice inside
`get_total_lines_in_a_file`: the absolute offset of the first LF at or after
`p`, or `p` itself when there is none (the source adds the `None => 0`). -/
def nlAt (buf : List Byte) (p : Nat) : Nat :=
  p + ((buf.drop p).findIdx? (fun b => decide (b.val = 10))).getD 0

/-- The middle shard ranges of `get_total_lines_in_a_file`: the stateful
`(1..thread_number - 1).map(...)` with its running `end_prefix`, returning
the emitted `(start, end)` pairs and the final `end_prefix`. -/
def midAux (buf : List Byte) (slots : Nat) :
    Nat → Nat → Nat → List (Nat × Nat) × Nat
  | _, 0, prev => ([], prev)
  | k, m + 1, prev =>
      let epos := nlAt buf ((k + 1) * slots)
      let r := midAux buf slots (k + 1) m epos
      ((prev + 1, epos) :: r.1, r.2)

/-- The `(start, end)` byte ranges of the shards built by
`get_total_lines_in_a_file` for `thread_number = n`. -/
def rangesOf (buf : List Byte) (n : Nat) : List (Nat × Nat) :=
  let slots := buf.length / n
  let e0 := nlAt buf slots
  let r := midAux buf slots 1 (n - 2) e0
  ((0, e0) :: r.1) ++ [(r.2, buf.length)]

/-- `parser.rs`, `CsvParser::get_total_lines_in_a_file`: each shard range
with its row count `slice.split(b'\n').count()` (the per-range counting
threads are pure and joined immediately, so the result is their values in
order). -/
def get_total_lines_in_a_file (buf : List Byte) (n : Nat) :
    List (Nat × Nat × Nat) :=
  (rangesOf buf n).map (fun r => (countNL (extract buf r.1 r.2) + 1, r.1, r.2))

/-- Decidable alignment check for the middle partition boundaries,
mirroring the recursion of `midAux`: each boundary search must find an LF
strictly inside the buffer, and the previous boundary must lie before the
next slot cut (so the ranges stay in order). -/
def mid_ok (buf : List Byte) (slots : Nat) : Nat → Nat → Nat → Bool
  | _, 0, _ => true
  | k, m + 1, prev =>
      decide (prev < (k + 1) * slots) &&
        decide (nlAt buf ((k + 1) * slots) < buf.length) &&
        decide (buf.get? (nlAt buf ((k + 1) * slots)) = some (10 : Byte)) &&
        mid_ok buf slots (k + 1) m (nlAt buf ((k + 1) * slots))

/-- Decidable alignment check for all partition boundaries of
`get_total_lines_in_a_file` (trivial for one or two shards, where no
boundary byte is skipped). -/
def aligned_cuts (buf : List Byte) (n : Nat) : Bool :=
  if n ≤ 2 then true
  else
    decide (nlAt buf (buf.length / n) < buf.length) &&
      decide (buf.get? (nlAt buf (buf.length / n)) = some (10 : Byte)) &&
      mid_ok buf (buf.length / n) 1 (n - 2) (nlAt buf (buf.length / n))

/-- Chain check over shard ranges given the previous range's end `p`: each
range starts at `p` or `p + 1` and has start ≤ end. -/
def chain_from (p : Nat) : List (Nat × Nat) → Bool
  | [] => true
  | r :: rest =>
      decide (p ≤ r.1) && decide (r.1 ≤ p + 1) && decide (r.1 ≤ r.2) &&
        chain_from r.2 rest

/-- The shard ranges are in order, non-overlapping, and each starts at or
one byte past the previous end. -/
def ranges_chain (l : List (Nat × Nat)) : Bool :=
  match l with
  | [] => true
  | r :: rest => decide (r.1 ≤ r.2) && chain_from r.2 rest

/-! ### Result slicing and the parallel fill -/

/-- Recursion of `CsvParser::split_slices` over `slice_info`, carrying
`curr_start`. -/
def split_slices_go (multiplier : Nat) :
    Nat → List (Nat × Nat × Nat) → List (Nat × Nat)
  | _, [] => []
  | curr, info :: rest =>
      (curr, info.1 * multiplier) ::
        split_slices_go multiplier (curr + info.1 * multiplier) rest

/-- `parser.rs`, `CsvParser::split_slices`: the `(start, length)` of each
raw view derived from the single allocation.  No bounds or overlap check is
performed in the source; whether the views stay inside the allocation is
exactly what claim C5 examines. -/
def split_slices (slice_info : List (Nat × Nat × Nat)) (multiplier : Nat) :
    List (Nat × Nat) :=
  split_slices_go multiplier 0 slice_info

/-- Write the pushed cells of one worker through its view: push `i` lands at
allocation slot `vstart + i` when `i < vlen` (the source's
`arr_index < column_data.len()` bound); `List.set` ignores writes past the
allocation, where the source view itself leaves the allocation (claim C5). -/
def write_from : List Cell → Nat → List Cell → List Cell
  | alloc, _, [] => alloc
  | alloc, pos, c :: rest => write_from (alloc.set pos c) (pos + 1) rest

/-- Fill one shard's view from its worker's push list. -/
def write_shard (alloc : List Cell) (vstart vlen : Nat) (cells : List Cell) :
    List Cell :=
  write_from alloc vstart (cells.take vlen)

/-- The scoped-thread fill loop of `parse_multi_threaded`: run every worker
over its byte range and write through its view; any worker panic aborts the
whole scope (`none`). -/
def run_shards (alloc : List Cell) :
    List ((Nat × Nat) × List Byte) → Option (List Cell)
  | [] => some alloc
  | (v, sbuf) :: rest =>
      match parse_content_on_buffer sbuf with
      | none => none
      | some cells => run_shards (write_shard alloc v.1 v.2 cells) rest

/-- The post-header content slice of `parse_multi_threaded`: advance past
the header line's LF, then `trim_ascii`. -/
def content_slice (file : List Byte) (off : Nat) : List Byte :=
  let next_pos :=
    off +
      (match (file.drop off).findIdx? (fun b => decide (b.val = 10)) with
       | some v => v + 1
       | none => 0)
  trim_ascii (file.drop next_pos)

/-- The `(view, shard bytes)` pairs handed to the workers by
`parse_multi_threaded` for content `s`, `n` threads and `ncols` columns. -/
def multi_jobs (s : List Byte) (n ncols : Nat) :
    List ((Nat × Nat) × List Byte) :=
  let L := get_total_lines_in_a_file s n
  (split_slices L ncols).zip (L.map (fun t => extract s t.2.1 t.2.2))

/-- `parser.rs`, `CsvParser::parse_multi_threaded` on the mapped file bytes:
header scan, line partitioning, zero-initialised flat allocation of
`(total rows) * (column count)` cells, the worker fill, and the resulting
flat cell sequence paired with the header.  (The source passes these two
values to the `DataFrame`; no column-type vector is computed anywhere on
this path.)  `none` models any panic. -/
def parse_multi_threaded (file : List Byte) (total_threads : Nat) :
    Option (List Cell × List (List Byte)) :=
  match scan_header file (2 * file.length + 8) with
  | none => none
  | some (hdr, off) =>
      let s := content_slice file off
      let L := get_total_lines_in_a_file s total_threads
      let c := (L.foldl (fun prev curr => prev + curr.1) 0) - 1
      let alloc := List.replicate (c * hdr.length) Cell.Null
      match run_shards alloc (multi_jobs s total_threads hdr.length) with
      | none => none
      | some result => some (result, hdr)

/-- `parser.rs`, `CsvParser::parse` on the mapped file bytes: trim, the
caller-side `skip_whitespace` followed by `scan_header`'s
`assert_eq!(offset, 0)` (which panics when the skip moved), the header scan,
and a fresh single parser running `parse_content`. -/
def parse (file : List Byte) : Option (List Cell × List (List Byte)) :=
  let sliced := trim_ascii file
  if skip_whitespace sliced 0 ≠ 0 then none
  else
    match scan_header sliced (2 * sliced.length + 8) with
    | none => none
    | some (hdr, off) =>
        match parse_content sliced off with
        | none => none
        | some cells => some (cells, hdr)

end Parser

/-! ## iter/mod.rs and dframe.rs -/

namespace Iter

/-- `iter/mod.rs`, `struct DataFrameColumnIterator`, abstracted to the
length of the backing cell slice plus the two cursor fields; `nth` only
compares and computes indices, so the cells themselves are irrelevant to
claim C10. -/
structure DataFrameColumnIterator where
  data_len : Nat
  col_size : Nat
  index : Nat
deriving DecidableEq

/-- `iter/mod.rs`, `DataFrameColumnIterator::next`: the read position (if
any) and the advanced iterator. -/
def next (it : DataFrameColumnIterator) :
    Option Nat × DataFrameColumnIterator :=
  if it.data_len ≤ it.index then (none, it)
  else (some it.index, ⟨it.data_len, it.col_size, it.index + it.col_size⟩)

/-- The read position `n * col_size + index` computed by
`DataFrameColumnIterator::nth`. -/
def nth_read (it : DataFrameColumnIterator) (n : Nat) : Nat :=
  n * it.col_size + it.index

/-- `iter/mod.rs`, `DataFrameColumnIterator::nth`: `none` when the guard
`n >= data_frame.len() / col_size` rejects, otherwise the position the
source immediately indexes with `data_frame[start]`. -/
def nth (it : DataFrameColumnIterator) (n : Nat) : Option Nat :=
  if it.data_len / it.col_size ≤ n then none else some (nth_read it n)

/-- `dframe.rs`, `DataFrame::iter_col`: linear search of the header,
producing an iterator whose starting index is the column position. -/
def iter_col (column_data_len : Nat) (header : List (List Byte))
    (col : List Byte) : Option DataFrameColumnIterator :=
  match header.findIdx? (fun c => c == col) with
  | none => none
  | some index => some ⟨column_data_len, header.length, index⟩

end Iter

/-! ## Concrete inputs used by the claim theorems -/

/-- The file `a,b\n1,2\n3,4`. -/
def fileC1 : List Byte := [97, 44, 98, 10, 49, 44, 50, 10, 51, 44, 52]

/-- The post-header content `1,2\n3,4` of `fileC1`. -/
def contentC1 : List Byte := [49, 44, 50, 10, 51, 44, 52]

/-- The buffer `a\nb\nc\nd`. -/
def bufC4 : List Byte := [97, 10, 98, 10, 99, 10, 100]

/-- The file `a\n9223372036854775808,1`: one column, and a cell holding
`2^63`, one past the largest `i64`. -/
def fileC6 : List Byte :=
  [97, 10, 57, 50, 50, 51, 51, 55, 50, 48, 51, 54, 56, 53, 52, 55, 55, 53,
   56, 48, 56, 44, 49]

/-- The row `3.5.6".5",`: a cell whose text contains a second decimal point
and then a quoted decimal. -/
def rowC7 : List Byte := [51, 46, 53, 46, 54, 34, 46, 53, 34, 44]

/-- The buffer `"a`: a header quote opened and never closed. -/
def bufC9 : List Byte := [34, 97]

/-- Whether a cell is a `String` cell. -/
def Cell.isStringCell : Cell → Bool
  | .String _ => true
  | _ => false

end Nn

/-! ## Claim theorems -/

/-- Claim C2: the type-merge operation `CellType::infer_type` does not
satisfy the specified lattice-merge table: merging an observed `F64` into an
accumulated `Null` yields `Null` instead of `F64` (the `infer_from_f64`
helper returns its receiver unchanged), so the operation is not commutative
and `Null` is not a two-sided identity. -/
theorem c2_counterexample :
    Nn.CellType.infer_type .F64 .Null = .Null ∧
    Nn.CellType.infer_type .Null .F64 = .F64 ∧
    Nn.CellType.infer_type .F64 .Null ≠ Nn.CellType.infer_type .Null .F64 ∧
    Nn.CellType.infer_type .F64 .I64 = .I64 := by
  decide

/-- Claim C3: whitespace suspension is not referentially transparent for
every decisive byte.  After a partially read number suspends on a space, a
quote byte resolves the suspension to `CellNumberEnd`, while feeding the
quote directly to the number state yields `CellQuoteStart`; the two disagree,
refuting the claimed equation `next (next s space) b = next s b` at
`s = CellNumberCurrent`, `b = quote`. -/
theorem c3_counterexample :
    Nn.Pstate.get_scan_state_from_data
        (Nn.Pstate.get_scan_state_from_data .CellNumberCurrent (32 : Byte))
        (34 : Byte) = .CellNumberEnd ∧
    Nn.Pstate.get_scan_state_from_data .CellNumberCurrent (34 : Byte) =
        .CellQuoteStart ∧
    Nn.Pstate.get_scan_state_from_data
        (Nn.Pstate.get_scan_state_from_data .CellNumberCurrent (32 : Byte))
        (34 : Byte) ≠
      Nn.Pstate.get_scan_state_from_data .CellNumberCurrent (34 : Byte) := by
  decide

/-- Claim C3 (amended): for the four plain number/decimal states, a space
suspends the machine remembering the canonical number/decimal sub-state; a
separator or LF then resolves the suspension to the same state as feeding
that byte directly; the quote byte resolves it to the remembered sub-state's
terminal end (not the quote-start that direct feeding produces); CR and
space keep the suspension; every other byte collapses it to the generic
continuing-string state `CellCurrent`.  The point-read decimal states do not
suspend on a space: they collapse to `CellCurrent` at once. -/
theorem c3_amended :
    (∀ s ∈ Nn.Pstate.suspendable,
      Nn.Pstate.get_scan_state_from_data s (32 : Byte) =
        .SkippedAssumeEndWhitespace (Nn.Pstate.suspended_memory s) ∧
      (∀ b : Byte, b.val = 44 ∨ b.val = 10 →
        Nn.Pstate.get_scan_state_from_data
            (Nn.Pstate.get_scan_state_from_data s (32 : Byte)) b =
          Nn.Pstate.get_scan_state_from_data s b) ∧
      Nn.Pstate.get_scan_state_from_data
          (Nn.Pstate.get_scan_state_from_data s (32 : Byte)) (34 : Byte) =
        Nn.Pstate.get_end_of_parse_state (Nn.Pstate.suspended_memory s) ∧
      Nn.Pstate.get_scan_state_from_data
          (Nn.Pstate.get_scan_state_from_data s (32 : Byte)) (13 : Byte) =
        Nn.Pstate.get_scan_state_from_data s (32 : Byte) ∧
      Nn.Pstate.get_scan_state_from_data
          (Nn.Pstate.get_scan_state_from_data s (32 : Byte)) (32 : Byte) =
        Nn.Pstate.get_scan_state_from_data s (32 : Byte) ∧
      (∀ b : Byte, b.val ≠ 44 → b.val ≠ 10 → b.val ≠ 13 → b.val ≠ 32 →
        b.val ≠ 34 →
        Nn.Pstate.get_scan_state_from_data
            (Nn.Pstate.get_scan_state_from_data s (32 : Byte)) b =
          .CellCurrent)) ∧
    Nn.Pstate.get_scan_state_from_data .CellDecimalStartWithPointRead
        (32 : Byte) = .CellCurrent ∧
    Nn.Pstate.get_scan_state_from_data .CellDecimalCurrentWithPointRead
        (32 : Byte) = .CellCurrent := by
  decide

/-- Claim C3 (amended), witnessed at `s = CellNumberStart` with the
non-decisive byte `A` resolving the suspension to `CellCurrent`. -/
theorem c3_amended_witness :
    Nn.Pstate.get_scan_state_from_data
        (Nn.Pstate.get_scan_state_from_data .CellNumberStart (32 : Byte))
        (65 : Byte) = .CellCurrent :=
  (c3_amended.1 .CellNumberStart (by decide)).2.2.2.2.2 (65 : Byte)
    (by decide) (by decide) (by decide) (by decide) (by decide)

/-- Claim C8: the quoted-context states are not closed under digit bytes: a
digit fed to the plain quoted-decimal body state `CellQuoteDecimalCurrent`
yields `CellNumberStart`, an unquoted state (`handle_number` has no arm for
the plain quoted-decimal states, so they fall to the default arm). -/
theorem c8_counterexample :
    Nn.Pstate.get_scan_state_from_data .CellQuoteDecimalCurrent (53 : Byte) =
        .CellNumberStart ∧
    Nn.Pstate.isQuoted .CellNumberStart = false := by
  decide

/-- Claim C8 (amended): for every quoted state the transition function
actually generates (quote-start/body for string, number, and point-read
decimal variants), a digit or decimal-point byte keeps the machine in a
quoted, non-closing state; and over all quoted states, including the two
unreachable plain quoted-decimal ones, only the quote byte ever transitions
a quoted state to a closing-quote state. -/
theorem c8_amended :
    (∀ q ∈ Nn.Pstate.reachableQuoted, ∀ b : Byte,
      ((48 ≤ b.val ∧ b.val ≤ 57) ∨ b.val = 46) →
      Nn.Pstate.isQuoted (Nn.Pstate.get_scan_state_from_data q b) = true ∧
      Nn.Pstate.isQuoteEnd (Nn.Pstate.get_scan_state_from_data q b) = false) ∧
    (∀ q ∈ Nn.Pstate.allQuoted, ∀ b : Byte,
      Nn.Pstate.isQuoteEnd (Nn.Pstate.get_scan_state_from_data q b) = true →
      b.val = 34) := by
  decide

/-- Claim C8 (amended), witnessed at the quote-open number state fed the
digit `5`, which stays quoted. -/
theorem c8_amended_witness :
    Nn.Pstate.isQuoted
        (Nn.Pstate.get_scan_state_from_data .CellQuoteNumberStart
          (53 : Byte)) = true :=
  ((c8_amended.1 .CellQuoteNumberStart (by decide) (53 : Byte)
    (Or.inl (by decide))).1)

/-- Claim C1: single-threaded and multi-threaded parsing do not agree.  On
the file `a,b\n1,2\n3,4`, `parse` yields the three cells `1, 2, 3` (the
final cell of the file never reaches a terminal state, so it is dropped),
while `parse_multi_threaded` with 2 shards yields `1, Null, 3, Null`: each
shard's byte range ends before a line terminator, so the last cell of each
shard is never materialized and its pre-zeroed slot stays `Null`.  (No
column-type vector is produced on either path.) -/
theorem c1_theorem :
    Nn.Parser.parse Nn.fileC1 =
      some ([.Number 1, .Number 2, .Number 3], [[97], [98]]) ∧
    Nn.Parser.parse_multi_threaded Nn.fileC1 2 =
      some ([.Number 1, .Null, .Number 3, .Null], [[97], [98]]) ∧
    Nn.Parser.parse Nn.fileC1 ≠ Nn.Parser.parse_multi_threaded Nn.fileC1 2 := by
  decide

/-- Claim C4: the shard ranges do not cover the buffer.  Partitioning
`a\nb\nc\nd` into 3 shards yields the byte ranges `[0,3)`, `[4,5)`, `[5,7)`:
byte 3 (the LF ending the first shard) belongs to no shard, so the union of
the ranges is not the full input range and consecutive ranges are not
contiguous. -/
theorem c4_counterexample :
    Nn.Parser.get_total_lines_in_a_file Nn.bufC4 3 =
      [(2, 0, 3), (1, 4, 5), (2, 5, 7)] ∧
    (3 : Nat) < Nn.bufC4.length ∧
    ∀ t ∈ Nn.Parser.get_total_lines_in_a_file Nn.bufC4 3,
      ¬ (t.2.1 ≤ 3 ∧ 3 < t.2.2) := by
  decide

/-- Claim C5: evaluation at the failing input.  For the content `1,2\n3,4`
with 2 shards and 2 columns, the partitioner reports row counts `1` and `2`;
the allocation holds `(1 + 2 - 1) * 2 = 4` cells, but `split_slices` derives
the views `[0,2)` and `[2,6)`: the views claim `(1 + 2) * 2 = 6` slots, so
the second view extends two slots past the allocation.  The views therefore
do not reconstruct the allocation, and no bounds or overlap check exists in
`split_slices` to reject this. -/
theorem c5_theorem :
    Nn.Parser.get_total_lines_in_a_file Nn.contentC1 2 = [(1, 0, 3), (2, 3, 7)] ∧
    Nn.Parser.split_slices
        (Nn.Parser.get_total_lines_in_a_file Nn.contentC1 2) 2 =
      [(0, 2), (2, 4)] ∧
    ((Nn.Parser.get_total_lines_in_a_file Nn.contentC1 2).foldl
        (fun prev curr => prev + curr.1) 0 - 1) * 2 = 4 ∧
    2 + 4 = 6 ∧ (4 : Nat) < 6 := by
  decide

/-- Claim C7: a second decimal point does not keep the cell away from
numeric states nor force a `String` cell.  In the cell text `3.5.6".5"` the
machine reads two decimal points and reaches `CellCurrent`, but the quote
byte reopens a quoted context; the worker then materializes `Decimal 5`
(the slice start is re-anchored past the quoted point, leaving `5`) plus a
`Null` at the separator — no `String` cell at all. -/
theorem c7_counterexample :
    Nn.Parser.parse_content_on_buffer Nn.rowC7 =
      some [.Decimal 5, .Null] ∧
    ([Nn.Cell.Decimal 5, Nn.Cell.Null].all
        (fun c => ¬ Nn.Cell.isStringCell c)) = true := by
  decide

/-- Claim C7 (amended): once a second decimal point puts the machine in
`CellCurrent`, every byte other than a quote keeps it in `CellCurrent` or
moves it to the string-classified boundary states `CellSep`/`NewLine` (so
among quote-free continuations the cell stays a string); a quote byte,
however, reopens a quoted context from which numeric states are reachable.
The three cited examples hold: `3.` reaches the float boundary and
materializes `Decimal 3`, `3.5` materializes `Decimal 3.5`, and `3.5.6`
materializes `String "3.5.6"`. -/
theorem c7_amended :
    (∀ b : Byte, b.val ≠ 34 →
      Nn.Parser.get_scan_state_from_data .CellCurrent b = .CellCurrent ∨
      Nn.Parser.get_scan_state_from_data .CellCurrent b = .CellSep ∨
      Nn.Parser.get_scan_state_from_data .CellCurrent b = .NewLine) ∧
    Nn.Parser.get_scan_state_from_data .CellCurrent (34 : Byte) =
      .CellQuoteStart ∧
    (∃ q : ℚ, Nn.Parser.parse_content_on_buffer [51, 46, 44] =
      some [.Decimal q] ∧ q = 3) ∧
    (∃ q : ℚ, Nn.Parser.parse_content_on_buffer [51, 46, 53, 44] =
      some [.Decimal q] ∧ q = 7 / 2) ∧
    Nn.Parser.parse_content_on_buffer [51, 46, 53, 46, 54, 44] =
      some [.String [51, 46, 53, 46, 54]] := by
  refine ⟨by decide, by decide, ⟨_, rfl, ?_⟩, ⟨_, rfl, ?_⟩, by decide⟩
  · simp +decide [Nn.Parser.stripSign, Nn.Parser.extract, Nn.Parser.digitsToNat]
    norm_num [show ((51 : Fin 256) : ℕ) = 51 from rfl]
  · simp +decide [Nn.Parser.stripSign, Nn.Parser.extract, Nn.Parser.digitsToNat]
    norm_num [show ((51 : Fin 256) : ℕ) = 51 from rfl,
      show ((53 : Fin 256) : ℕ) = 53 from rfl]

/-- Claim C7 (amended), witnessed at the non-quote byte `x`, which keeps
`CellCurrent`. -/
theorem c7_amended_witness :
    Nn.Parser.get_scan_state_from_data .CellCurrent (120 : Byte) =
        .CellCurrent ∨
    Nn.Parser.get_scan_state_from_data .CellCurrent (120 : Byte) =
        .CellSep ∨
    Nn.Parser.get_scan_state_from_data .CellCurrent (120 : Byte) =
        .NewLine :=
  c7_amended.1 (120 : Byte) (by decide)

/-- Claim C10: the bound check in `DataFrameColumnIterator::nth` is not
sufficient after `next` has been called.  On a 2-column table with 4 cells,
the column-0 iterator advanced by two `next` calls has `index = 4`; `nth 1`
passes the guard `1 < 4 / 2` and computes read position `1 * 2 + 4 = 6`,
which is outside the 4-cell buffer, so the source's `data_frame[start]`
indexes out of bounds. -/
theorem c10_counterexample :
    Nn.Iter.iter_col 4 [[97], [98]] [97] = some ⟨4, 2, 0⟩ ∧
    Nn.Iter.nth
        ((Nn.Iter.next (Nn.Iter.next ⟨4, 2, 0⟩).2).2) 1 = some 6 ∧
    ¬ ((6 : Nat) < 4) := by
  decide

/-- Helper: if any worker in the job list fails, the scoped fill loop fails
(the panic propagates through the thread scope). -/
theorem run_shards_eq_none (alloc : List Nn.Cell)
    (jobs : List ((Nat × Nat) × List Byte))
    (h : ∃ job ∈ jobs, Nn.Parser.parse_content_on_buffer job.2 = none) :
    Nn.Parser.run_shards alloc jobs = none := by
  induction jobs generalizing alloc with
  | nil => rcases h with ⟨j, hj, _⟩; cases hj
  | cons a rest ih =>
      obtain ⟨v, sbuf⟩ := a
      rcases h with ⟨j, hj, hfail⟩
      rcases List.mem_cons.mp hj with rfl | hmem
      · simp [Nn.Parser.run_shards, hfail]
      · rw [Nn.Parser.run_shards]
        cases hp : Nn.Parser.parse_content_on_buffer sbuf with
        | none => rfl
        | some cells => exact ih _ ⟨j, hmem, hfail⟩

/-- Claim C6: a numeric-classified slice that fails to parse aborts the
whole multi-threaded parse.  If the header scan succeeded and some shard's
worker hits a failed numeric conversion (the only way
`parse_content_on_buffer` returns `none`), then `parse_multi_threaded`
returns no table at all: the worker panic propagates through the thread
scope, and no partially-filled result is ever handed to the caller. -/
theorem c6_theorem (file : List Byte) (n : Nat) (hdr : List (List Byte))
    (off : Nat)
    (hs : Nn.Parser.scan_header file (2 * file.length + 8) = some (hdr, off))
    (hfail : ∃ job ∈
        Nn.Parser.multi_jobs (Nn.Parser.content_slice file off) n hdr.length,
      Nn.Parser.parse_content_on_buffer job.2 = none) :
    Nn.Parser.parse_multi_threaded file n = none := by
  unfold Nn.Parser.parse_multi_threaded
  rw [hs]
  simp only [run_shards_eq_none _ _ hfail]

/-- Claim C6, witnessed on the file `a\n9223372036854775808,1` parsed with
one thread: the 19-digit cell is classified as a number, exceeds `i64`, the
worker fails, and the parse returns nothing. -/
theorem c6_witness : Nn.Parser.parse_multi_threaded Nn.fileC6 1 = none :=
  c6_theorem Nn.fileC6 1 [[97]] 1 (by decide)
    ⟨((0, 1), Nn.Parser.content_slice Nn.fileC6 1), by decide, by decide⟩

/-- Helper: one more unit of fuel preserves a successful header scan. -/
theorem scan_header_loop_succ {buf : List Byte} :
    ∀ {fuel : Nat} {st : Nn.Parser.ParseState} {off : Nat}
      {acc : List (List Byte)} {r : List (List Byte) × Nat},
      Nn.Parser.scan_header_loop buf fuel st off acc = some r →
      Nn.Parser.scan_header_loop buf (fuel + 1) st off acc = some r := by
  intro fuel
  induction fuel with
  | zero =>
      intro st off acc r h
      simp [Nn.Parser.scan_header_loop] at h
  | succ n ih =>
      intro st off acc r h
      rw [Nn.Parser.scan_header_loop] at h ⊢
      cases hs : Nn.Parser.scan_header_step buf st off acc with
      | inr v => rw [hs] at h; exact h
      | inl s => rw [hs] at h; exact ih h

/-- Helper: any larger amount of fuel preserves a successful header scan. -/
theorem scan_header_loop_le {buf : List Byte} {fuel fuel' : Nat}
    {st : Nn.Parser.ParseState} {off : Nat} {acc : List (List Byte)}
    {r : List (List Byte) × Nat} (hle : fuel ≤ fuel')
    (h : Nn.Parser.scan_header_loop buf fuel st off acc = some r) :
    Nn.Parser.scan_header_loop buf fuel' st off acc = some r := by
  induction hle with
  | refl => exact h
  | step _ ih => exact scan_header_loop_succ ih

/-- Helper: on the buffer `"a` the header scan never succeeds, whatever the
fuel: the quote sub-scanner's search for a closing quote fails, which is the
source's infinite loop. -/
theorem scan_header_bufC9_none :
    ∀ fuel, Nn.Parser.scan_header Nn.bufC9 fuel = none := by
  intro fuel
  match fuel with
  | 0 => rfl
  | 1 => rfl
  | n + 2 => rfl

/-- Claim C9: `scan_header` does not terminate on every buffer.  On the
two-byte header `"a` the quote is opened and never closed; the quote
sub-scanner advances its offset past the end of the buffer forever (the
`None` arm of `get_curr_byte` falls into `move_next`), so the scan never
returns — it does not consume the rest of the buffer as a column name. -/
theorem c9_counterexample : ¬ Nn.Parser.ScanHeaderTerminates Nn.bufC9 := by
  rintro ⟨fuel, r, h⟩
  rw [scan_header_bufC9_none fuel] at h
  exact Option.noConfusion h

/-- Helper: on a quote-free buffer whose last byte is LF, the header-scan
loop starting from `scan_start` at any offset reaches its break within
`2 * d + 3` iterations, where `d` bounds the bytes left. -/
theorem scan_loop_reaches_break (buf : List Byte)
    (hq : ∀ b ∈ buf, b.val ≠ 34)
    (hlast : buf.get? (buf.length - 1) = some (10 : Byte)) :
    ∀ d off acc, buf.length - off ≤ d →
      ∃ r, Nn.Parser.scan_header_loop buf (2 * d + 3)
            (Nn.Parser.scan_start buf off) off acc = some r := by
  intro d
  induction d with
  | zero =>
      intro off acc hoff
      have hnone : buf.get? off = none := List.get?_eq_none.mpr (by omega)
      have hscan : Nn.Parser.scan_start buf off = .NewLine := by
        simp only [Nn.Parser.scan_start]
        rw [hnone]
      exact ⟨(acc, off), by rw [hscan]; rfl⟩
  | succ n ih =>
      intro off acc hoff
      cases hoffb : buf.get? off with
      | none =>
          have hscan : Nn.Parser.scan_start buf off = .NewLine := by
            simp only [Nn.Parser.scan_start]
            rw [hoffb]
          exact ⟨(acc, off), by rw [hscan]; rfl⟩
      | some b =>
          have hb34 : b.val ≠ 34 := hq b (List.get?_mem hoffb)
          by_cases h44 : b.val = 44
          · have hscan : Nn.Parser.scan_start buf off = .HeaderSep := by
              simp only [Nn.Parser.scan_start]
              rw [hoffb]
              simp [hb34, h44]
            rw [hscan]
            obtain ⟨r, hr⟩ := ih (off + 1) acc (by omega)
            refine ⟨r, ?_⟩
            show Nn.Parser.scan_header_loop buf ((2 * (n + 1) + 2) + 1)
                .HeaderSep off acc = some r
            rw [Nn.Parser.scan_header_loop]
            simp only [Nn.Parser.scan_header_step]
            exact scan_header_loop_le (by omega) hr
          · by_cases h10 : b.val = 10
            · have hscan : Nn.Parser.scan_start buf off = .NewLine := by
                simp only [Nn.Parser.scan_start]
                rw [hoffb]
                simp [hb34, h44, h10]
              exact ⟨(acc, off), by rw [hscan]; rfl⟩
            · have hscan : Nn.Parser.scan_start buf off = .HeaderString := by
                simp only [Nn.Parser.scan_start]
                rw [hoffb]
                simp [hb34, h44, h10]
              rw [hscan]
              have hofflt : off < buf.length := by
                by_contra hge
                rw [List.get?_eq_none.mpr (by omega)] at hoffb
                exact Option.noConfusion hoffb
              have hoffne : off ≠ buf.length - 1 := by
                intro e
                rw [e, hlast] at hoffb
                exact h10 (by rw [← Option.some.inj hoffb]; rfl)
              -- the closing LF of the header line exists at or after off + 1
              have hmem : (10 : Byte) ∈ buf.drop (off + 1) := by
                apply List.get?_mem (n := buf.length - 1 - (off + 1))
                rw [List.get?_drop]
                have harith : off + 1 + (buf.length - 1 - (off + 1)) =
                    buf.length - 1 := by omega
                rw [harith]; exact hlast
              have hany : (buf.drop (off + 1)).any Nn.Parser.isHeaderTerm =
                  true := List.any_eq_true.mpr ⟨10, hmem, by decide⟩
              have hsome :
                  ((buf.drop (off + 1)).findIdx?
                    Nn.Parser.isHeaderTerm).isSome = true := by
                rw [List.findIdx?_isSome, hany]
              obtain ⟨j0, hj0⟩ := Option.isSome_iff_exists.mp hsome
              obtain ⟨hjlt, hjp, -⟩ :=
                List.findIdx?_eq_some_iff_getElem.mp hj0
              have hfind : Nn.Parser.findFrom buf Nn.Parser.isHeaderTerm
                  (off + 1) = some (off + 1 + j0) := by
                simp [Nn.Parser.findFrom, hj0]
              have hjb : buf.get? (off + 1 + j0) =
                  some ((buf.drop (off + 1))[j0]) := by
                rw [← List.get?_drop]
                exact List.get?_eq_get hjlt
              refine ?_
              show ∃ r, Nn.Parser.scan_header_loop buf ((2 * (n + 1) + 2) + 1)
                  .HeaderString off acc = some r
              rw [Nn.Parser.scan_header_loop]
              simp only [Nn.Parser.scan_header_step, hfind, hjb]
              by_cases hc44 : ((buf.drop (off + 1))[j0] : Byte).val = 44
              · rw [if_pos hc44]
                obtain ⟨r, hr⟩ := ih (off + 1 + j0 + 1)
                  (acc ++ [Nn.Parser.extract buf off (off + 1 + j0)])
                  (by omega)
                refine ⟨r, ?_⟩
                show Nn.Parser.scan_header_loop buf ((2 * n + 3) + 1)
                    .HeaderSep (off + 1 + j0)
                    (acc ++ [Nn.Parser.extract buf off (off + 1 + j0)]) =
                  some r
                rw [Nn.Parser.scan_header_loop]
                simp only [Nn.Parser.scan_header_step]
                exact hr
              · rw [if_neg hc44]
                exact ⟨(acc ++ [Nn.Parser.extract buf off (off + 1 + j0)],
                  off + 1 + j0), by rfl⟩

/-- Claim C9 (amended): on every buffer that contains no quote byte and
whose last byte is LF, `scan_header` terminates (the loop reaches its
`NewLine` break); with an unterminated quote the scanner loops forever
instead of consuming the remainder as a column name (see the
counterexample). -/
theorem c9_amended (buf : List Byte) (hq : ∀ b ∈ buf, b.val ≠ 34)
    (hlast : buf.getLast? = some (10 : Byte)) :
    Nn.Parser.ScanHeaderTerminates buf := by
  have hlast' : buf.get? (buf.length - 1) = some (10 : Byte) := by
    rw [← List.getLast?_eq_get?]; exact hlast
  obtain ⟨r, hr⟩ := scan_loop_reaches_break buf hq hlast' buf.length
    (Nn.Parser.skip_whitespace buf 0) [] (by omega)
  refine ⟨2 * buf.length + 3 + 1, r, ?_⟩
  show Nn.Parser.scan_header_loop buf (2 * buf.length + 3 + 1) .Start
      (Nn.Parser.skip_whitespace buf 0) [] = some r
  rw [Nn.Parser.scan_header_loop]
  simp only [Nn.Parser.scan_header_step]
  exact hr

/-- Claim C9 (amended), witnessed on the quote-free buffer `a\n`. -/
theorem c9_amended_witness : Nn.Parser.ScanHeaderTerminates [97, 10] :=
  c9_amended [97, 10] (by decide) (by decide)

/-- Claim C10 (amended): for the iterator freshly produced by `iter_col`
(whose index is the column position, strictly below the column count), the
`nth` guard is sufficient: whenever `nth` passes its bound check, the
computed read position is strictly inside the cell buffer.  Once `next`
calls have advanced the iterator, the same guard no longer rules out an
out-of-bounds read (see the counterexample). -/
theorem c10_amended (column_data_len : Nat) (header : List (List Byte))
    (col : List Byte) (it : Nn.Iter.DataFrameColumnIterator) (n : Nat)
    (hit : Nn.Iter.iter_col column_data_len header col = some it)
    (p : Nat) (hp : Nn.Iter.nth it n = some p) :
    p < column_data_len := by
  unfold Nn.Iter.iter_col at hit
  cases hidx : header.findIdx? (fun c => c == col) with
  | none => rw [hidx] at hit; exact Option.noConfusion hit
  | some i =>
      rw [hidx] at hit
      obtain ⟨hlt, -, -⟩ := List.findIdx?_eq_some_iff_getElem.mp hidx
      injection hit with hit
      subst hit
      unfold Nn.Iter.nth Nn.Iter.nth_read at hp
      split at hp
      · exact Option.noConfusion hp
      · rename_i hguard
        injection hp with hp
        subst hp
        dsimp only at hguard ⊢
        have h1 : n + 1 ≤ column_data_len / header.length := by omega
        have h2 : (n + 1) * header.length ≤
            (column_data_len / header.length) * header.length :=
          Nat.mul_le_mul_right _ h1
        have h3 : (column_data_len / header.length) * header.length ≤
            column_data_len := Nat.div_mul_le_self _ _
        have h4 : (n + 1) * header.length =
            n * header.length + header.length := by ring
        omega

/-- Claim C10 (amended), witnessed on a 4-cell, 2-column table: the fresh
column-1 iterator's `nth 1` reads position 3, inside the buffer. -/
theorem c10_amended_witness : (3 : Nat) < 4 :=
  c10_amended 4 [[97], [98]] [98] ⟨4, 2, 1⟩ 1 (by decide) 3 (by decide)

/-- Helper: the start-of-search offset bounds `nlAt` from below. -/
theorem nlAt_ge (buf : List Byte) (p : Nat) : p ≤ Nn.Parser.nlAt buf p :=
  Nat.le_add_right _ _

/-- Helper: `nlAt` never leaves the buffer when started inside it. -/
theorem nlAt_le (buf : List Byte) (p : Nat) (h : p ≤ buf.length) :
    Nn.Parser.nlAt buf p ≤ buf.length := by
  unfold Nn.Parser.nlAt
  cases hf : (buf.drop p).findIdx? (fun b => decide (b.val = 10)) with
  | none => simpa using h
  | some j =>
      obtain ⟨hlt, -, -⟩ := List.findIdx?_eq_some_iff_getElem.mp hf
      rw [List.length_drop] at hlt
      simp only [Option.getD_some]
      omega

/-- Helper: a byte slice splits at any interior position. -/
theorem extract_append_split (buf : List Byte) {s m e : Nat} (h1 : s ≤ m)
    (h2 : m ≤ e) :
    Nn.Parser.extract buf s e =
      Nn.Parser.extract buf s m ++ Nn.Parser.extract buf m e := by
  unfold Nn.Parser.extract
  rw [List.drop_take, List.drop_take, List.drop_take]
  have hsplit : e - s = (m - s) + (e - m) := by omega
  rw [hsplit, List.take_add]
  congr 2
  rw [List.drop_drop]
  congr 1
  omega

/-- Helper: LF counts add across a split slice. -/
theorem countNL_extract_split (buf : List Byte) {s m e : Nat} (h1 : s ≤ m)
    (h2 : m ≤ e) :
    Nn.Parser.countNL (Nn.Parser.extract buf s e) =
      Nn.Parser.countNL (Nn.Parser.extract buf s m) +
        Nn.Parser.countNL (Nn.Parser.extract buf m e) := by
  unfold Nn.Parser.countNL
  rw [extract_append_split buf h1 h2, List.countP_append]

/-- Helper: the slice from `p` to the end of the buffer is `drop p`. -/
theorem extract_to_length (buf : List Byte) (p : Nat) :
    Nn.Parser.extract buf p buf.length = buf.drop p := by
  unfold Nn.Parser.extract
  rw [List.take_length]

/-- Helper: dropping past an LF loses exactly one LF from the count. -/
theorem countNL_drop_succ (buf : List Byte) {p : Nat} (hp : p < buf.length)
    (hb : buf.get? p = some (10 : Byte)) :
    Nn.Parser.countNL (buf.drop p) =
      Nn.Parser.countNL (buf.drop (p + 1)) + 1 := by
  rw [List.drop_eq_getElem_cons hp]
  unfold Nn.Parser.countNL
  rw [List.countP_cons]
  have hbp : buf[p] = (10 : Byte) := by
    rw [List.get?_eq_getElem?] at hb
    rw [List.getElem?_eq_getElem hp] at hb
    exact Option.some.inj hb
  rw [hbp]
  simp [show ((10 : Byte) : ℕ) = 10 from rfl]

/-- Helper: under the alignment check, the middle shards plus the final
shard decompose the byte range from the previous boundary to the end of the
buffer, so their `split('\n').count()` row counts sum to the LF count of
that range plus one. -/
theorem midAux_sum (buf : List Byte) (slots : Nat) :
    ∀ (m k prev : Nat), Nn.Parser.mid_ok buf slots k m prev = true →
      prev < buf.length → buf.get? prev = some (10 : Byte) →
      ((Nn.Parser.midAux buf slots k m prev).1.map
          (fun r => Nn.Parser.countNL (Nn.Parser.extract buf r.1 r.2) + 1)).sum
        + (Nn.Parser.countNL (Nn.Parser.extract buf
            (Nn.Parser.midAux buf slots k m prev).2 buf.length) + 1)
      = Nn.Parser.countNL (Nn.Parser.extract buf prev buf.length) + 1 := by
  intro m
  induction m with
  | zero =>
      intro k prev _ _ _
      simp [Nn.Parser.midAux]
  | succ m ih =>
      intro k prev hok hlt hb
      rw [Nn.Parser.mid_ok] at hok
      simp only [Bool.and_eq_true, decide_eq_true_eq] at hok
      obtain ⟨⟨⟨hprev, heposlt⟩, heposb⟩, hrest⟩ := hok
      have hge : (k + 1) * slots ≤ Nn.Parser.nlAt buf ((k + 1) * slots) :=
        nlAt_ge buf _
      have hmid := ih (k + 1) (Nn.Parser.nlAt buf ((k + 1) * slots)) hrest
        heposlt heposb
      have hcomp1 : (Nn.Parser.midAux buf slots k (m + 1) prev).1 =
          (prev + 1, Nn.Parser.nlAt buf ((k + 1) * slots)) ::
            (Nn.Parser.midAux buf slots (k + 1) m
              (Nn.Parser.nlAt buf ((k + 1) * slots))).1 := by
        rw [Nn.Parser.midAux]
      have hcomp2 : (Nn.Parser.midAux buf slots k (m + 1) prev).2 =
          (Nn.Parser.midAux buf slots (k + 1) m
            (Nn.Parser.nlAt buf ((k + 1) * slots))).2 := by
        rw [Nn.Parser.midAux]
      rw [hcomp1, hcomp2, List.map_cons, List.sum_cons]
      dsimp only
      have hdrop : Nn.Parser.countNL (Nn.Parser.extract buf prev buf.length) =
          Nn.Parser.countNL (Nn.Parser.extract buf (prev + 1) buf.length) +
            1 := by
        rw [extract_to_length, extract_to_length]
        exact countNL_drop_succ buf hlt hb
      have hsplit :
          Nn.Parser.countNL (Nn.Parser.extract buf (prev + 1) buf.length) =
          Nn.Parser.countNL (Nn.Parser.extract buf (prev + 1)
            (Nn.Parser.nlAt buf ((k + 1) * slots))) +
          Nn.Parser.countNL (Nn.Parser.extract buf
            (Nn.Parser.nlAt buf ((k + 1) * slots)) buf.length) :=
        countNL_extract_split buf (by omega) (by omega)
      omega

/-- Helper: under the alignment check the middle shards plus the final
shard form an ordered chain after the previous boundary. -/
theorem midAux_chain (buf : List Byte) (slots : Nat) :
    ∀ (m k prev : Nat), Nn.Parser.mid_ok buf slots k m prev = true →
      prev ≤ buf.length →
      Nn.Parser.chain_from prev
        ((Nn.Parser.midAux buf slots k m prev).1 ++
          [((Nn.Parser.midAux buf slots k m prev).2, buf.length)]) = true := by
  intro m
  induction m with
  | zero =>
      intro k prev _ hp
      simp [Nn.Parser.midAux, Nn.Parser.chain_from, hp]
  | succ m ih =>
      intro k prev hok hp
      rw [Nn.Parser.mid_ok] at hok
      simp only [Bool.and_eq_true, decide_eq_true_eq] at hok
      obtain ⟨⟨⟨hprev, heposlt⟩, heposb⟩, hrest⟩ := hok
      have hge : (k + 1) * slots ≤ Nn.Parser.nlAt buf ((k + 1) * slots) :=
        nlAt_ge buf _
      have hcomp1 : (Nn.Parser.midAux buf slots k (m + 1) prev).1 =
          (prev + 1, Nn.Parser.nlAt buf ((k + 1) * slots)) ::
            (Nn.Parser.midAux buf slots (k + 1) m
              (Nn.Parser.nlAt buf ((k + 1) * slots))).1 := by
        rw [Nn.Parser.midAux]
      have hcomp2 : (Nn.Parser.midAux buf slots k (m + 1) prev).2 =
          (Nn.Parser.midAux buf slots (k + 1) m
            (Nn.Parser.nlAt buf ((k + 1) * slots))).2 := by
        rw [Nn.Parser.midAux]
      rw [hcomp1, hcomp2, List.cons_append, Nn.Parser.chain_from]
      simp only [Bool.and_eq_true, decide_eq_true_eq]
      refine ⟨⟨⟨by omega, by omega⟩, by omega⟩, ?_⟩
      exact ih (k + 1) _ hrest (by omega)

/-- Helper: the whole buffer as a slice. -/
theorem extract_zero_length (buf : List Byte) :
    Nn.Parser.extract buf 0 buf.length = buf := by
  unfold Nn.Parser.extract
  rw [List.take_length, List.drop_zero]

/-- Helper: searching for an LF at the end of the buffer stays there. -/
theorem nlAt_length (buf : List Byte) :
    Nn.Parser.nlAt buf buf.length = buf.length := by
  unfold Nn.Parser.nlAt
  rw [List.drop_length]
  rfl

/-- Claim C4 (amended): the shard ranges are in order and non-overlapping,
the first starts at byte 0 and the last ends at the buffer length, and the
sum of the per-shard row counts minus one equals the LF count plus one (the
true row count of a trimmed buffer); but each middle shard starts one byte
past the previous boundary, skipping the boundary LF, so for three or more
shards the union of the ranges omits those newline bytes (see the
counterexample) — coverage is exact only for one or two shards.  The
row-count identity and the ordering need every boundary search to find an
LF inside its slot, which the decidable `aligned_cuts` check captures; for
one or two shards it holds unconditionally. -/
theorem c4_amended (buf : List Byte) (n : Nat) (h1 : 1 ≤ n)
    (h2 : Nn.Parser.aligned_cuts buf n = true) :
    Nn.Parser.ranges_chain (Nn.Parser.rangesOf buf n) = true ∧
    (Nn.Parser.rangesOf buf n).head?.map Prod.fst = some 0 ∧
    (Nn.Parser.rangesOf buf n).getLast?.map Prod.snd = some buf.length ∧
    ((Nn.Parser.get_total_lines_in_a_file buf n).map (fun t => t.1)).sum - 1 =
      Nn.Parser.countNL buf + 1 := by
  have hhead : (Nn.Parser.rangesOf buf n).head?.map Prod.fst = some 0 := by
    simp only [Nn.Parser.rangesOf, List.cons_append, List.head?_cons]
    rfl
  have hlastp : (Nn.Parser.rangesOf buf n).getLast?.map Prod.snd =
      some buf.length := by
    simp only [Nn.Parser.rangesOf, List.getLast?_concat]
    rfl
  by_cases hn2 : n ≤ 2
  -- one or two shards: no boundary byte is skipped, no hypothesis needed
  · interval_cases n
    · refine ⟨?_, hhead, hlastp, ?_⟩
      · simp [Nn.Parser.rangesOf, Nn.Parser.midAux, Nat.div_one,
          nlAt_length, Nn.Parser.ranges_chain, Nn.Parser.chain_from]
      · have hext : Nn.Parser.extract buf buf.length buf.length = [] := by
          unfold Nn.Parser.extract
          rw [List.take_length, List.drop_length]
        simp [Nn.Parser.get_total_lines_in_a_file, Nn.Parser.rangesOf,
          Nn.Parser.midAux, Nat.div_one, nlAt_length, extract_zero_length,
          hext, Nn.Parser.countNL]
    · have he0 : Nn.Parser.nlAt buf (buf.length / 2) ≤ buf.length :=
        nlAt_le buf _ (Nat.div_le_self _ _)
      refine ⟨?_, hhead, hlastp, ?_⟩
      · simp [Nn.Parser.rangesOf, Nn.Parser.midAux,
          Nn.Parser.ranges_chain, Nn.Parser.chain_from, he0]
      · have hsplit :
            Nn.Parser.countNL (Nn.Parser.extract buf 0 buf.length) =
            Nn.Parser.countNL (Nn.Parser.extract buf 0
              (Nn.Parser.nlAt buf (buf.length / 2))) +
            Nn.Parser.countNL (Nn.Parser.extract buf
              (Nn.Parser.nlAt buf (buf.length / 2)) buf.length) :=
          countNL_extract_split buf (by omega) he0
        rw [extract_zero_length] at hsplit
        simp only [Nn.Parser.get_total_lines_in_a_file, Nn.Parser.rangesOf,
          Nn.Parser.midAux, List.map_append, List.map_cons, List.map_nil,
          List.sum_append, List.sum_cons, List.sum_nil]
        omega
  -- three or more shards: use the alignment hypothesis
  · unfold Nn.Parser.aligned_cuts at h2
    rw [if_neg hn2] at h2
    simp only [Bool.and_eq_true, decide_eq_true_eq] at h2
    obtain ⟨⟨he0lt, he0b⟩, hmid⟩ := h2
    refine ⟨?_, hhead, hlastp, ?_⟩
    · have hchain := midAux_chain buf (buf.length / n) (n - 2) 1
        (Nn.Parser.nlAt buf (buf.length / n)) hmid (by omega)
      simp only [Nn.Parser.rangesOf, List.cons_append, Nn.Parser.ranges_chain]
      simp only [Bool.and_eq_true, decide_eq_true_eq]
      exact ⟨by omega, hchain⟩
    · have hsum := midAux_sum buf (buf.length / n) (n - 2) 1
        (Nn.Parser.nlAt buf (buf.length / n)) hmid he0lt he0b
      have hsplit : Nn.Parser.countNL (Nn.Parser.extract buf 0 buf.length) =
          Nn.Parser.countNL (Nn.Parser.extract buf 0
            (Nn.Parser.nlAt buf (buf.length / n))) +
          Nn.Parser.countNL (Nn.Parser.extract buf
            (Nn.Parser.nlAt buf (buf.length / n)) buf.length) :=
        countNL_extract_split buf (by omega) (by omega)
      rw [extract_zero_length] at hsplit
      simp only [Nn.Parser.get_total_lines_in_a_file, Nn.Parser.rangesOf,
        List.cons_append, List.map_map, Function.comp_def, List.map_append,
        List.map_cons, List.map_nil, List.sum_append, List.sum_cons,
        List.sum_nil]
      omega

/-- Claim C4 (amended), witnessed on the buffer `a\nb\nc\nd` split three
ways: the cuts are aligned and the row-count identity gives 4 rows. -/
theorem c4_amended_witness :
    Nn.Parser.ranges_chain (Nn.Parser.rangesOf Nn.bufC4 3) = true ∧
    (Nn.Parser.rangesOf Nn.bufC4 3).head?.map Prod.fst = some 0 ∧
    (Nn.Parser.rangesOf Nn.bufC4 3).getLast?.map Prod.snd =
      some Nn.bufC4.length ∧
    ((Nn.Parser.get_total_lines_in_a_file Nn.bufC4 3).map
        (fun t => t.1)).sum - 1 =
      Nn.Parser.countNL Nn.bufC4 + 1 :=
  c4_amended Nn.bufC4 3 (by decide) (by decide)
